import Mathlib

/-!
Verification of the CIOUring wrapper (`Sources/CIOUring/CIOUring.c` and
`Sources/CIOUring/include/CIOUring.h`) and of the submission/completion
lifecycle the specification layers on top of it.

The C sources define five passthrough functions over liburing:
`iouring_create`, `iouring_destroy`, `iouring_submit_and_wait`,
`iouring_get_sqe`, `iouring_cqe_seen`, and the one-field struct
`io_uring_handle { struct io_uring ring; }`.

liburing itself is not part of the repository, so the underlying
`io_uring_*` operations are modelled from the specification's substrate
contract (spec section 6) and marked as such.  Likewise the engine
(Slot Allocator / Request Table / Completion Path) exists only in the
specification; it is modelled from the spec where a claim needs it.

Machine details embedded explicitly:
* a possibly-NULL pointer is an `Option`;
* `malloc` success and `io_uring_queue_init`'s return code are oracle
  parameters, since they depend on the environment;
* allocation and free of the handle memory are traced by counters.
-/

/-- Modelled from the spec: the kernel-shared ring pair behind a
`struct io_uring` (liburing is absent from the sources).  `cap` is the
queue depth fixed at initialization; `sq` holds populated submission
entries (their tags) reserved but not yet handed to the kernel;
`pending` holds entries handed to the kernel whose completion has not
been generated yet; `cq` holds completion entries ready to be consumed. -/
structure IoUring where
  cap : Nat
  sq : List Nat
  pending : List Nat
  cq : List Nat
deriving DecidableEq

/-- Modelled from the spec: `io_uring_queue_init(entries, ring, 0)` on its
success path sets up empty rings sized for `entries` outstanding slots. -/
def io_uring_queue_init (entries : Nat) : IoUring :=
  { cap := entries, sq := [], pending := [], cq := [] }

/-- Modelled from the spec: `io_uring_get_sqe` returns a writable
submission-slot reference (here: the slot index, together with the ring
state in which that slot is reserved and populated with `tag`) or NULL
when all `cap` slots are currently reserved and not yet handed to the
kernel. -/
def io_uring_get_sqe (r : IoUring) (tag : Nat) : Option (Nat × IoUring) :=
  if r.sq.length < r.cap then
    some (r.sq.length, { r with sq := r.sq ++ [tag] })
  else
    none

/-- Modelled from the spec: the kernel making at least `need` completions
available in the completion ring, as far as submitted-but-uncompleted
entries exist to draw from. -/
def kernelFill (r : IoUring) (need : Nat) : IoUring :=
  let k := min (need - r.cq.length) r.pending.length
  { r with cq := r.cq ++ r.pending.take k, pending := r.pending.drop k }

/-- Modelled from the spec: `io_uring_submit_and_wait(ring, wait_nr)`
flushes every reserved submission slot to the kernel in one call, blocks
until at least `wait_nr` completions are ready, and returns the number of
entries submitted, or a negative error code when the kernel rejects the
call (`kernErr` is the oracle for that outcome). -/
def io_uring_submit_and_wait (kernErr : Option Int) (r : IoUring) (wait_nr : Nat) :
    Int × IoUring :=
  match kernErr with
  | some e => (e, r)
  | none =>
      let flushed := r.sq
      let r1 : IoUring := { r with sq := [], pending := r.pending ++ flushed }
      ((flushed.length : Int), kernelFill r1 wait_nr)

/-- Modelled from the spec: `io_uring_cqe_seen(ring, cqe)` marks the given
completion entry as consumed so its ring slot can be reused. -/
def io_uring_cqe_seen (r : IoUring) (cqe : Nat) : IoUring :=
  { r with cq := r.cq.erase cqe }

/-- `struct io_uring_handle { struct io_uring ring; }` from CIOUring.h. -/
structure io_uring_handle where
  ring : IoUring
deriving DecidableEq

/-- Execution trace of one `iouring_create` call: its return value, the
number of successful `malloc` calls it made, and the number of `free`
calls it made. -/
structure CreateTrace where
  result : Option io_uring_handle
  allocs : Nat
  frees : Nat
deriving DecidableEq

/-- `iouring_create(entries)` from CIOUring.c: `malloc` the handle
(returning NULL when that fails), initialize the kernel ring into
`handle->ring` (freeing the handle and returning NULL when
`io_uring_queue_init` reports an error, i.e. a negative `initRes`),
otherwise return the handle.  `mallocOk` and `initRes` are the oracles
for the two environment-dependent outcomes. -/
def iouring_create (mallocOk : Bool) (initRes : Int) (entries : Nat) : CreateTrace :=
  if mallocOk = false then
    { result := none, allocs := 0, frees := 0 }
  else if initRes < 0 then
    { result := none, allocs := 1, frees := 1 }
  else
    { result := some { ring := io_uring_queue_init entries }, allocs := 1, frees := 0 }

/-- A created handle together with the liveness of the two resources it
owns: the `malloc`ed handle memory (`allocLive`) and the kernel ring
resources set up by `io_uring_queue_init` (`kernelLive`). -/
structure HandleWorld where
  ring : IoUring
  allocLive : Bool
  kernelLive : Bool
deriving DecidableEq

/-- Requests in flight on a handle: entries handed to the kernel whose
completions have not yet been consumed. -/
def HandleWorld.outstanding (w : HandleWorld) : Nat :=
  w.ring.pending.length + w.ring.cq.length

/-- `iouring_destroy(handle)` from CIOUring.c: unconditionally
`io_uring_queue_exit(&handle->ring)` (releasing the kernel ring) and then
`free(handle)` (releasing the handle memory).  There is no check of any
kind before either call. -/
def iouring_destroy (w : HandleWorld) : HandleWorld :=
  { w with allocLive := false, kernelLive := false }

/-- The passthrough shape of `iouring_submit_and_wait` in CIOUring.c:
apply the underlying function to `handle->ring` and return its result. -/
def submitThrough (f : IoUring → Int × IoUring) (h : io_uring_handle) :
    Int × io_uring_handle :=
  ((f h.ring).1, { ring := (f h.ring).2 })

/-- The passthrough shape of `iouring_get_sqe` in CIOUring.c. -/
def getSqeThrough (f : IoUring → Option (Nat × IoUring)) (h : io_uring_handle) :
    Option (Nat × io_uring_handle) :=
  (f h.ring).map (fun p => (p.1, { ring := p.2 }))

/-- The passthrough shape of `iouring_cqe_seen` in CIOUring.c. -/
def cqeSeenThrough (f : IoUring → IoUring) (h : io_uring_handle) : io_uring_handle :=
  { ring := f h.ring }

/-- `iouring_submit_and_wait(handle, wait_nr)` from CIOUring.c:
`return io_uring_submit_and_wait(&handle->ring, wait_nr);`. -/
def iouring_submit_and_wait (kernErr : Option Int) (h : io_uring_handle)
    (wait_nr : Nat) : Int × io_uring_handle :=
  submitThrough (fun r => io_uring_submit_and_wait kernErr r wait_nr) h

/-- `iouring_get_sqe(handle)` from CIOUring.c:
`return io_uring_get_sqe(&handle->ring);`. -/
def iouring_get_sqe (h : io_uring_handle) (tag : Nat) :
    Option (Nat × io_uring_handle) :=
  getSqeThrough (fun r => io_uring_get_sqe r tag) h

/-- `iouring_cqe_seen(handle, cqe)` from CIOUring.c:
`io_uring_cqe_seen(&handle->ring, cqe);`. -/
def iouring_cqe_seen (h : io_uring_handle) (cqe : Nat) : io_uring_handle :=
  cqeSeenThrough (fun r => io_uring_cqe_seen r cqe) h

/-- Observable contract a passthrough wrapper must meet according to the
specification's reading of the source: apply the underlying function to
the handle's embedded ring, return exactly its result, and update no
handle state beyond the embedded ring.  Stated as its own definition so
the source-derived `submitThrough` can be compared against it. -/
def submitSpecSide (f : IoUring → Int × IoUring) (h : io_uring_handle) :
    Int × io_uring_handle :=
  ((f h.ring).1, { h with ring := (f h.ring).2 })

/-- Spec-side counterpart of `getSqeThrough`, as for `submitSpecSide`. -/
def getSqeSpecSide (f : IoUring → Option (Nat × IoUring)) (h : io_uring_handle) :
    Option (Nat × io_uring_handle) :=
  (f h.ring).map (fun p => (p.1, { h with ring := p.2 }))

/-- Spec-side counterpart of `cqeSeenThrough`, as for `submitSpecSide`. -/
def cqeSeenSpecSide (f : IoUring → IoUring) (h : io_uring_handle) : io_uring_handle :=
  { h with ring := f h.ring }

/-- `iouring_destroy` called through a possibly-NULL pointer: the body
dereferences `handle` with no NULL check, so a NULL argument has no
defined result. -/
def iouring_destroy_ptr : Option HandleWorld → Option HandleWorld
  | none => none
  | some w => some (iouring_destroy w)

/-- `iouring_submit_and_wait` called through a possibly-NULL pointer;
no NULL check precedes the dereference of `handle`. -/
def iouring_submit_and_wait_ptr (kernErr : Option Int)
    (h : Option io_uring_handle) (wait_nr : Nat) : Option (Int × io_uring_handle) :=
  match h with
  | none => none
  | some h => some (iouring_submit_and_wait kernErr h wait_nr)

/-- `iouring_get_sqe` called through a possibly-NULL pointer;
no NULL check precedes the dereference of `handle`. -/
def iouring_get_sqe_ptr (h : Option io_uring_handle) (tag : Nat) :
    Option (Option (Nat × io_uring_handle)) :=
  match h with
  | none => none
  | some h => some (iouring_get_sqe h tag)

/-- `iouring_cqe_seen` called through a possibly-NULL pointer;
no NULL check precedes the dereference of `handle`. -/
def iouring_cqe_seen_ptr (h : Option io_uring_handle) (cqe : Nat) :
    Option io_uring_handle :=
  match h with
  | none => none
  | some h => some (iouring_cqe_seen h cqe)

/-- Modelled from the spec: the engine state above the wrapper — the
Request Table of in-flight tags (registered at submission, removed when
their completion is delivered) bounded by the queue-depth capacity, and
the completions the kernel has made available but the engine has not yet
drained. -/
structure Engine where
  cap : Nat
  table : List Nat
  cqAvail : List Nat
deriving DecidableEq

/-- Modelled from the spec: `submit` acquires a slot (QueueFull, i.e.
`none`, when the capacity is exhausted by in-flight requests) and
registers the tag in the Request Table. -/
def Engine.submit (e : Engine) (tag : Nat) : Option Engine :=
  if e.table.length < e.cap then
    some { e with table := e.table ++ [tag] }
  else
    none

/-- Modelled from the spec: draining one available completion — resolve
its tag from the Request Table (removing it) and consume the entry. -/
def Engine.drainOne (e : Engine) : Engine :=
  match e.cqAvail with
  | [] => e
  | c :: rest => { e with cqAvail := rest, table := e.table.erase c }

/-- Submit a sequence of tags in order, failing if any submission
reports QueueFull. -/
def submitAll (e : Engine) : List Nat → Option Engine
  | [] => some e
  | t :: ts => (e.submit t).bind (fun e2 => submitAll e2 ts)

/-- Modelled from the spec: the Completion Path processing kernel
completions in their arrival order `order` against the in-flight table —
each tag is resolved (removed) from the table and delivered; a tag not
present in the table is the fatal UnknownTag consistency error (`none`).
Returns the list of delivered tags. -/
def pumpAll : List Nat → List Nat → Option (List Nat)
  | _, [] => some []
  | table, c :: rest =>
      if c ∈ table then (pumpAll (table.erase c) rest).map (fun d => c :: d)
      else none

/-- A full engine run: create an engine of capacity `cap`, submit `tags`,
then pump until the kernel-chosen completion order `order` is drained. -/
def engineRun (cap : Nat) (tags order : List Nat) : Option (List Nat) :=
  (submitAll { cap := cap, table := [], cqAvail := [] } tags).bind
    (fun e => pumpAll e.table order)

/-! ## Claims -/

/-- C1: for every capacity value, `iouring_create` returns either a valid
handle whose kernel-shared rings are initialized for that capacity, or
NULL when handle allocation or kernel ring initialization fails; it never
returns a handle whose ring was not successfully initialized. -/
theorem iouring_create_valid_or_null (m : Bool) (i : Int) (e : Nat) :
    (∀ h, (iouring_create m i e).result = some h →
      0 ≤ i ∧ h.ring = io_uring_queue_init e ∧ h.ring.cap = e) ∧
    ((iouring_create m i e).result = none ↔ (m = false ∨ i < 0)) := by
  unfold iouring_create
  split
  · simp_all
  · split
    · simp_all
    · constructor
      · intro h hh
        simp only [Option.some.injEq] at hh
        subst hh
        refine ⟨by omega, rfl, rfl⟩
      · simp_all

/-- Witness for C1 at a concrete input: creation with a successful malloc
and a successful ring initialization at capacity 4. -/
theorem iouring_create_valid_or_null_witness :
    0 ≤ (0 : Int) ∧
    (io_uring_handle.mk (io_uring_queue_init 4)).ring = io_uring_queue_init 4 ∧
    (io_uring_handle.mk (io_uring_queue_init 4)).ring.cap = 4 :=
  (iouring_create_valid_or_null true 0 4).1 (io_uring_handle.mk (io_uring_queue_init 4))
    (by decide)

/-- C3: whenever `iouring_create` returns NULL, every handle allocation it
made has been freed — in particular on the early error return taken when
kernel ring initialization fails after the handle was allocated. -/
theorem iouring_create_no_leak (m : Bool) (i : Int) (e : Nat)
    (hnull : (iouring_create m i e).result = none) :
    (iouring_create m i e).allocs = (iouring_create m i e).frees := by
  unfold iouring_create at hnull ⊢
  split at hnull
  · simp [*]
  · split at hnull
    · simp [*]
    · simp_all

/-- Witness for C3 at a concrete input: malloc succeeds and ring
initialization fails with -1; the one allocation is freed. -/
theorem iouring_create_no_leak_witness :
    (iouring_create true (-1) 4).allocs = (iouring_create true (-1) 4).frees :=
  iouring_create_no_leak true (-1) 4 (by decide)

/-- C2 counterexample: a handle with one outstanding request (one entry
pending in the kernel), on which `iouring_destroy` nevertheless releases
the kernel ring and frees the handle memory — the claimed HandleBusy
rejection does not exist in the code. -/
theorem iouring_destroy_busy_counterexample :
    1 ≤ (HandleWorld.mk (IoUring.mk 1 [] [7] []) true true).outstanding ∧
    (iouring_destroy (HandleWorld.mk (IoUring.mk 1 [] [7] []) true true)).kernelLive
      = false ∧
    (iouring_destroy (HandleWorld.mk (IoUring.mk 1 [] [7] []) true true)).allocLive
      = false := by
  refine ⟨by decide, rfl, rfl⟩

/-- C2 (amended): `iouring_destroy` releases the kernel ring and frees the
handle unconditionally — even while requests are outstanding; it performs
no HandleBusy check, that rejection being left to the engine's Shutdown
Sequencer above this wrapper. -/
theorem iouring_destroy_unconditional (w : HandleWorld)
    (_hbusy : 1 ≤ w.outstanding) :
    (iouring_destroy w).kernelLive = false ∧ (iouring_destroy w).allocLive = false :=
  ⟨rfl, rfl⟩

/-- Witness for the amended C2: destroying a handle with one outstanding
request releases both resources. -/
theorem iouring_destroy_unconditional_witness :
    (iouring_destroy (HandleWorld.mk (IoUring.mk 2 [] [3] []) true true)).kernelLive
      = false ∧
    (iouring_destroy (HandleWorld.mk (IoUring.mk 2 [] [3] []) true true)).allocLive
      = false :=
  iouring_destroy_unconditional (HandleWorld.mk (IoUring.mk 2 [] [3] []) true true)
    (by decide)

/-- C9: every handle-taking operation dereferences its handle argument
unconditionally — a NULL handle has no defined result, and a non-NULL
handle is always acted on with no check of any kind. -/
theorem handle_ops_deref_unconditionally (kernErr : Option Int) (w : HandleWorld)
    (h : io_uring_handle) (wait_nr tag cqe : Nat) :
    iouring_destroy_ptr none = none ∧
    iouring_destroy_ptr (some w) = some (iouring_destroy w) ∧
    iouring_submit_and_wait_ptr kernErr none wait_nr = none ∧
    iouring_submit_and_wait_ptr kernErr (some h) wait_nr
      = some (iouring_submit_and_wait kernErr h wait_nr) ∧
    iouring_get_sqe_ptr none tag = none ∧
    iouring_get_sqe_ptr (some h) tag = some (iouring_get_sqe h tag) ∧
    iouring_cqe_seen_ptr none cqe = none ∧
    iouring_cqe_seen_ptr (some h) cqe = some (iouring_cqe_seen h cqe) :=
  ⟨rfl, rfl, rfl, rfl, rfl, rfl, rfl, rfl⟩

/-- C10: each wrapper is observationally equal to the underlying function
applied to the handle's embedded ring — for an arbitrary underlying
function it passes its arguments through unchanged, returns exactly the
underlying result, and updates no handle state beyond the ring field. -/
theorem wrappers_passthrough (f : IoUring → Int × IoUring)
    (g : IoUring → Option (Nat × IoUring)) (k : IoUring → IoUring)
    (h : io_uring_handle) :
    submitThrough f h = submitSpecSide f h ∧
    getSqeThrough g h = getSqeSpecSide g h ∧
    cqeSeenThrough k h = cqeSeenSpecSide k h ∧
    (submitThrough f h).1 = (f h.ring).1 ∧
    (submitThrough f h).2.ring = (f h.ring).2 ∧
    (cqeSeenThrough k h).ring = k h.ring ∧
    (∀ kernErr wait_nr, iouring_submit_and_wait kernErr h wait_nr
      = submitThrough (fun r => io_uring_submit_and_wait kernErr r wait_nr) h) ∧
    (∀ tag, iouring_get_sqe h tag
      = getSqeThrough (fun r => io_uring_get_sqe r tag) h) ∧
    (∀ cqe, iouring_cqe_seen h cqe
      = cqeSeenThrough (fun r => io_uring_cqe_seen r cqe) h) :=
  ⟨rfl, rfl, rfl, rfl, rfl, rfl, fun _ _ => rfl, fun _ => rfl, fun _ => rfl⟩

/-- C4: `iouring_get_sqe` returns either a writable submission-slot
reference or NULL; under the ring invariant that at most `cap` slots are
reserved, the NULL (QueueFull) outcome occurs exactly when all `cap`
slots are currently reserved and not yet handed to the kernel. -/
theorem iouring_get_sqe_slot_or_queuefull (h : io_uring_handle) (tag : Nat)
    (hinv : h.ring.sq.length ≤ h.ring.cap) :
    (iouring_get_sqe h tag = none ↔ h.ring.sq.length = h.ring.cap) ∧
    (h.ring.sq.length < h.ring.cap →
      ∃ s h2, iouring_get_sqe h tag = some (s, h2)) := by
  by_cases hc : h.ring.sq.length < h.ring.cap
  · constructor
    · simp only [iouring_get_sqe, getSqeThrough, io_uring_get_sqe, hc, if_true,
        Option.map_some]
      constructor
      · intro hh
        exact absurd hh (by simp)
      · intro hh
        omega
    · intro _
      refine ⟨h.ring.sq.length, { ring := { h.ring with sq := h.ring.sq ++ [tag] } },
        ?_⟩
      simp [iouring_get_sqe, getSqeThrough, io_uring_get_sqe, hc]
  · constructor
    · simp only [iouring_get_sqe, getSqeThrough, io_uring_get_sqe, hc, if_false,
        Option.map_none]
      constructor
      · intro _
        omega
      · intro _
        rfl
    · intro hlt
      exact absurd hlt hc

/-- Witness for C4: on a fresh ring of capacity 2 a slot is available. -/
theorem iouring_get_sqe_slot_or_queuefull_witness :
    ∃ s h2, iouring_get_sqe (io_uring_handle.mk (IoUring.mk 2 [] [] [])) 0
      = some (s, h2) :=
  (iouring_get_sqe_slot_or_queuefull (io_uring_handle.mk (IoUring.mk 2 [] [] [])) 0
    (by decide)).2 (by decide)

/-- After the kernel is asked for `need` completions, the completion ring
holds at least `need` entries, provided enough submitted entries exist. -/
theorem kernelFill_cq_length (r : IoUring) (need : Nat)
    (hen : need ≤ r.cq.length + r.pending.length) :
    need ≤ (kernelFill r need).cq.length := by
  simp only [kernelFill, List.length_append, List.length_take]
  omega

/-- C5: `iouring_submit_and_wait` either reports the kernel's error, or
flushes every reserved submission slot to the kernel in one call, returns
the non-negative count of entries submitted, and — as long as `wait_nr`
does not exceed the entries that can still complete — returns only once
at least `wait_nr` completions are ready. -/
theorem iouring_submit_and_wait_contract (kernErr : Option Int)
    (h : io_uring_handle) (wait_nr : Nat) :
    (∀ e, kernErr = some e →
      iouring_submit_and_wait kernErr h wait_nr = (e, h)) ∧
    (kernErr = none →
      0 ≤ (iouring_submit_and_wait kernErr h wait_nr).1 ∧
      (iouring_submit_and_wait kernErr h wait_nr).1 = (h.ring.sq.length : Int) ∧
      (iouring_submit_and_wait kernErr h wait_nr).2.ring.sq = [] ∧
      (wait_nr ≤ h.ring.cq.length + h.ring.pending.length + h.ring.sq.length →
        wait_nr ≤ (iouring_submit_and_wait kernErr h wait_nr).2.ring.cq.length)) := by
  constructor
  · intro e he
    subst he
    rfl
  · intro he
    subst he
    refine ⟨?_, rfl, ?_, ?_⟩
    · show (0 : Int) ≤ (h.ring.sq.length : Int)
      exact Int.natCast_nonneg _
    · simp [iouring_submit_and_wait, submitThrough, io_uring_submit_and_wait,
        kernelFill]
    · intro hw
      have := kernelFill_cq_length
        { h.ring with sq := [], pending := h.ring.pending ++ h.ring.sq } wait_nr
        (by simp only [List.length_append]; omega)
      simpa [iouring_submit_and_wait, submitThrough, io_uring_submit_and_wait]
        using this

/-- Witness for C5: the error branch at a concrete kernel error, and the
success branch submitting one entry and waiting for one completion. -/
theorem iouring_submit_and_wait_contract_witness :
    iouring_submit_and_wait (some (-5)) (io_uring_handle.mk (IoUring.mk 4 [] [] []))
      0 = (-5, io_uring_handle.mk (IoUring.mk 4 [] [] [])) ∧
    1 ≤ (iouring_submit_and_wait none (io_uring_handle.mk (IoUring.mk 4 [8] [] []))
      1).2.ring.cq.length :=
  ⟨(iouring_submit_and_wait_contract (some (-5))
      (io_uring_handle.mk (IoUring.mk 4 [] [] [])) 0).1 (-5) rfl,
   ((iouring_submit_and_wait_contract none
      (io_uring_handle.mk (IoUring.mk 4 [8] [] [])) 1).2 rfl).2.2.2 (by decide)⟩

/-- Reserving a slot never changes the ring's capacity. -/
theorem io_uring_get_sqe_cap (r : IoUring) (tag s : Nat) (r2 : IoUring)
    (hs : io_uring_get_sqe r tag = some (s, r2)) : r2.cap = r.cap := by
  unfold io_uring_get_sqe at hs
  split at hs
  · simp only [Option.some.injEq, Prod.mk.injEq] at hs
    obtain ⟨-, rfl⟩ := hs
    rfl
  · cases hs

/-- C7: the queue-depth capacity established at creation is never changed
by any operation on the handle — whenever slot reservation returns a
slot, the resulting ring keeps the capacity, and publish-and-wait and
completion-consumed marking leave `cap` untouched on every handle,
including one whose submission queue is full. -/
theorem capacity_fixed (kernErr : Option Int) (h : io_uring_handle)
    (tag wait_nr cqe : Nat) :
    (∀ s h2, iouring_get_sqe h tag = some (s, h2) → h2.ring.cap = h.ring.cap) ∧
    (iouring_submit_and_wait kernErr h wait_nr).2.ring.cap = h.ring.cap ∧
    (iouring_cqe_seen h cqe).ring.cap = h.ring.cap := by
  refine ⟨?_, ?_, rfl⟩
  · intro s h2 hsome
    simp only [iouring_get_sqe, getSqeThrough, Option.map_eq_some'] at hsome
    obtain ⟨⟨s0, r2⟩, hu, hpair⟩ := hsome
    have hcap := io_uring_get_sqe_cap h.ring tag s0 r2 hu
    have hring : h2.ring = r2 := by
      have hsnd := congrArg Prod.snd hpair
      simpa using (congrArg io_uring_handle.ring hsnd).symm
    rw [hring, hcap]
  · cases kernErr with
    | none => rfl
    | some e => rfl

/-- Witness for C7: on a concrete handle of capacity 2, a successful slot
reservation keeps the capacity, and publish-and-wait and consumed-marking
keep it on a concrete handle whose submission queue is full. -/
theorem capacity_fixed_witness :
    (io_uring_handle.mk (IoUring.mk 2 [0] [] [])).ring.cap
      = (io_uring_handle.mk (IoUring.mk 2 [] [] [])).ring.cap ∧
    (iouring_submit_and_wait none (io_uring_handle.mk (IoUring.mk 2 [4, 5] [] []))
      0).2.ring.cap = (io_uring_handle.mk (IoUring.mk 2 [4, 5] [] [])).ring.cap ∧
    (iouring_cqe_seen (io_uring_handle.mk (IoUring.mk 2 [4, 5] [] [])) 0).ring.cap
      = (io_uring_handle.mk (IoUring.mk 2 [4, 5] [] [])).ring.cap :=
  ⟨(capacity_fixed none (io_uring_handle.mk (IoUring.mk 2 [] [] [])) 0 0 0).1 0
      (io_uring_handle.mk (IoUring.mk 2 [0] [] [])) (by decide),
   (capacity_fixed none (io_uring_handle.mk (IoUring.mk 2 [4, 5] [] [])) 0 0 0).2.1,
   (capacity_fixed none (io_uring_handle.mk (IoUring.mk 2 [4, 5] [] [])) 0 0 0).2.2⟩

/-- Submitting a batch that fits in the remaining capacity succeeds and
appends every tag to the Request Table in order. -/
theorem submitAll_of_le (ts : List Nat) : ∀ (e : Engine),
    e.table.length + ts.length ≤ e.cap →
    submitAll e ts = some { e with table := e.table ++ ts } := by
  induction ts with
  | nil =>
      intro e _
      simp [submitAll]
  | cons t ts ih =>
      intro e hle
      have hlt : e.table.length < e.cap := by
        simp only [List.length_cons] at hle
        omega
      have step := ih { e with table := e.table ++ [t] }
        (by simp only [List.length_append, List.length_singleton]
            simp only [List.length_cons] at hle
            omega)
      have hstep1 : submitAll e (t :: ts)
          = submitAll { cap := e.cap, table := e.table ++ [t], cqAvail := e.cqAvail }
              ts := by
        simp [submitAll, Engine.submit, hlt]
      rw [hstep1, step]
      simp [List.append_assoc]

/-- C6: with all `cap` slots outstanding every further submission reports
QueueFull, and after exactly one available completion is drained exactly
one further submission succeeds — the one after it reports QueueFull
again. -/
theorem queue_full_then_drain_one (e : Engine) (t t2 c : Nat) (rest : List Nat)
    (hfull : e.table.length = e.cap) (hcq : e.cqAvail = c :: rest)
    (hmem : c ∈ e.table) :
    e.submit t = none ∧
    ∃ e2, e.drainOne.submit t = some e2 ∧ e2.submit t2 = none := by
  have hpos : 1 ≤ e.table.length := by
    have := List.length_pos.mpr (List.ne_nil_of_mem hmem)
    omega
  have herase : (e.table.erase c).length = e.table.length - 1 :=
    List.length_erase_of_mem hmem
  constructor
  · simp [Engine.submit, hfull]
  · refine ⟨{ cap := e.cap, table := e.table.erase c ++ [t], cqAvail := rest }, ?_, ?_⟩
    · simp only [Engine.drainOne, hcq, Engine.submit, herase]
      have : e.table.length - 1 < e.cap := by omega
      simp [this]
    · simp only [Engine.submit, List.length_append, List.length_singleton, herase]
      have : ¬ (e.table.length - 1 + 1 < e.cap) := by omega
      simp [this]

/-- Witness for C6: a full engine of capacity 1 with one completion
available — the extra submission fails, one submission succeeds after the
drain, and the next fails again. -/
theorem queue_full_then_drain_one_witness :
    (Engine.mk 1 [5] [5]).submit 6 = none ∧
    ∃ e2, (Engine.mk 1 [5] [5]).drainOne.submit 6 = some e2 ∧
      e2.submit 7 = none :=
  queue_full_then_drain_one (Engine.mk 1 [5] [5]) 6 7 5 [] (by decide) rfl
    (by decide)

/-- Pumping the kernel's completions in any order that is a permutation
of the in-flight table delivers exactly that order, with no UnknownTag
failure. -/
theorem pumpAll_of_perm (order : List Nat) : ∀ (table : List Nat),
    table.Nodup → order.Perm table → pumpAll table order = some order := by
  induction order with
  | nil =>
      intro table _ _
      rfl
  | cons c rest ih =>
      intro table hnd hp
      have hc : c ∈ table := hp.subset (List.mem_cons_self c rest)
      have hrest : rest.Perm (table.erase c) :=
        (hp.trans (List.perm_cons_erase hc)).cons_inv
      have := ih (table.erase c) (hnd.erase c) hrest
      simp [pumpAll, hc, this]

/-- C8: for every sequence of distinct tags not exceeding the capacity and
every order in which the kernel may echo them back, the full run delivers
every submitted tag exactly once — at-most-once delivery per tag and
eventual delivery of all of them. -/
theorem tags_delivered_exactly_once (cap : Nat) (tags order : List Nat)
    (hnd : tags.Nodup) (hlen : tags.length ≤ cap) (hperm : order.Perm tags) :
    ∃ delivered, engineRun cap tags order = some delivered ∧
      (∀ t ∈ tags, delivered.count t = 1) ∧
      (∀ t, delivered.count t ≤ 1) := by
  have hsub := submitAll_of_le tags { cap := cap, table := [], cqAvail := [] }
    (by simpa using hlen)
  have hpump := pumpAll_of_perm order tags hnd hperm
  refine ⟨order, ?_, ?_, ?_⟩
  · unfold engineRun
    rw [hsub]
    simpa using hpump
  · intro t ht
    exact List.count_eq_one_of_mem (hperm.symm.nodup hnd) (hperm.mem_iff.mpr ht)
  · intro t
    exact List.nodup_iff_count_le_one.mp (hperm.symm.nodup hnd) t

/-- Witness for C8: two tags submitted at capacity 2 and completed in the
opposite order are each delivered exactly once. -/
theorem tags_delivered_exactly_once_witness :
    ∃ delivered, engineRun 2 [1, 2] [2, 1] = some delivered ∧
      (∀ t ∈ [1, 2], delivered.count t = 1) ∧
      (∀ t, delivered.count t ≤ 1) :=
  tags_delivered_exactly_once 2 [1, 2] [2, 1] (by decide) (by decide) (by decide)
